import Mathlib

/-!
Verification of the replican-sync core (checksum engine, gob codec for the
Block/File/Dir index nodes, and the local block store) against its
natural-language specification.  The Go (and embedded C++/Lua prototype)
source is shallowly embedded: structs become Lean structures, pointer-typed
parent back-references become the owning node's strong checksum wrapped in
`Option`, the gob wire format becomes a list of typed values, and the
filesystem becomes a map from path to byte list.  Machine integers (`int`,
`int64`) are modeled as `Int`; every value arising in the verified scenarios
is far below the 32/64-bit overflow boundary.
-/

namespace Replican

/-! ## Checksum engine (part_000: C++ `WeakChecksum`, Lua `start_cksum` / `roll_cksum`)

`BLOCKSIZE` is 8192 in both the C++ header and the spec. -/

def BLOCKSIZE : Int := 8192

/-- C++ `WeakChecksum::roll(removedByte, newByte)` (identical to the Lua
`roll_cksum`): `a -= removedByte - newByte; b -= removedByte * BLOCKSIZE - a`,
where the second line reads the already-updated `a`.  State is `(a, b)`. -/
def wcRoll (removed new : Int) (st : Int × Int) : Int × Int :=
  let a := st.1 - (removed - new)
  let b := st.2 - (removed * BLOCKSIZE - a)
  (a, b)

/-- The loop of the Lua `start_cksum`: for the 1-based index `i` running
over the buffer, `a = a + x` and `b = b + (l - i) * x` where `l` is the
whole buffer's length. -/
def start_aux (l : Int) : Int → List Int → Int × Int → Int × Int
  | _, [], st => st
  | i, x :: rest, st => start_aux l (i + 1) rest (st.1 + x, st.2 + (l - i) * x)

/-- Lua `start_cksum(data)`: one pass over the buffer from `a = 0, b = 0`.
This is the only full-buffer weak-checksum initialisation (`update`)
present in the source; the C++ `WeakChecksum::update` is declared but its
body is absent. -/
def start_cksum (data : List Int) : Int × Int :=
  start_aux data.length 1 data (0, 0)

/-- The externally visible weak checksum value: C++ `getChecksum` is
`b << 16 | a`, the Lua `weak_cksum` computes `b * 65536 + a`; the two agree
for `0 ≤ a < 2^16 ≤ b`-free carries, which holds for every value arising
here, so the arithmetic form is used. -/
def getChecksum (st : Int × Int) : Int := st.2 * 65536 + st.1

/-- Rolling a window in from an all-zero state: successive `roll(0, x)` for
each byte `x` of the buffer, starting from `a = 0, b = 0`. -/
def rollFromZero (data : List Int) : Int × Int :=
  data.foldl (fun st x => wcRoll 0 x st) (0, 0)

/-! ## Index node data model

The Go `Block`/`File`/`Dir` structs (fields read off their uses in the gob
codec and store: `position`, `weak`, `strong`, `parent`; `name`, `mode`,
`strong`, `Size`, `Blocks`, `parent`; `name`, `mode`, `strong`, `SubDirs`,
`Files`, `parent`).  The Go `parent` field is a pointer to the owning
node; a pure embedding cannot hold the cyclic pointer, so `parent` stores
the owning node's strong checksum (the spec's canonical node identity),
`none` standing for a nil pointer. -/

structure Block where
  position : Int
  weak : Int
  strong : String
  parent : Option String
deriving Repr, DecidableEq

structure File where
  name : String
  mode : Int
  strong : String
  Size : Int
  Blocks : List Block
  parent : Option String
deriving Repr, DecidableEq

structure Dir where
  name : String
  mode : Int
  strong : String
  SubDirs : List Dir
  Files : List File
  parent : Option String
deriving Repr

/-- Modelled from the spec: a Block's byte offset within its owning file is
`position × BLOCKSIZE` (the `Offset` method body is not under src/). -/
def Block.Offset (b : Block) : Int := b.position * BLOCKSIZE

/-! ## Gob codec (part_000, Go)

The gob stream is modeled as a list of typed values; `DecodeValue` into an
`int`/`string`/slice field succeeds exactly when the next wire value has
that shape.  The Go decoders mutate the receiver field by field; the
embedding threads the receiver explicitly and returns it together with the
error slot, so partial mutation is observable. -/

def gobNodeVersion : Int := 1

inductive GobVal where
  | vint (i : Int)
  | vstr (s : String)
  | vblocks (bs : List Block)
  | vfiles (fs : List File)
  | vdirs (ds : List Dir)

/-- `checkVersion`: decodes the leading version tag (ignoring the decode
error, as the Go does — a failed decode leaves `version = 0`) and compares
it with `gobNodeVersion`. -/
def checkVersion : List GobVal → Option String × List GobVal
  | .vint v :: rest =>
      if v ≠ gobNodeVersion then
        (some "VersionMismatch", rest)
      else
        (none, rest)
  | buf => (some "VersionMismatch", buf)

def decInt : List GobVal → Except String (Int × List GobVal)
  | .vint i :: rest => .ok (i, rest)
  | _ => .error "gob: type mismatch"

def decStr : List GobVal → Except String (String × List GobVal)
  | .vstr s :: rest => .ok (s, rest)
  | _ => .error "gob: type mismatch"

def decBlocks : List GobVal → Except String (List Block × List GobVal)
  | .vblocks bs :: rest => .ok (bs, rest)
  | _ => .error "gob: type mismatch"

def decFiles : List GobVal → Except String (List File × List GobVal)
  | .vfiles fs :: rest => .ok (fs, rest)
  | _ => .error "gob: type mismatch"

def decDirs : List GobVal → Except String (List Dir × List GobVal)
  | .vdirs ds :: rest => .ok (ds, rest)
  | _ => .error "gob: type mismatch"

/-- `Block.GobDecode`: version check, then `position`, `weak`, `strong` in
order, aborting (with the receiver as mutated so far) on the first error. -/
def Block.gobDecode (block : Block) (buf : List GobVal) : Block × Option String :=
  match checkVersion buf with
  | (some e, _) => (block, some e)
  | (none, r0) =>
    match decInt r0 with
    | .error e => (block, some e)
    | .ok (pos, r1) =>
      let block := { block with position := pos }
      match decInt r1 with
      | .error e => (block, some e)
      | .ok (w, r2) =>
        let block := { block with weak := w }
        match decStr r2 with
        | .error e => (block, some e)
        | .ok (s, _) => ({ block with strong := s }, none)

/-- `File.GobDecode`: version check, then `name`, `mode`, `strong`, `Size`,
`Blocks`; on success every decoded child block gets its parent reference
set to the just-decoded file. -/
def File.gobDecode (file : File) (buf : List GobVal) : File × Option String :=
  match checkVersion buf with
  | (some e, _) => (file, some e)
  | (none, r0) =>
    match decStr r0 with
    | .error e => (file, some e)
    | .ok (nm, r1) =>
      let file := { file with name := nm }
      match decInt r1 with
      | .error e => (file, some e)
      | .ok (md, r2) =>
        let file := { file with mode := md }
        match decStr r2 with
        | .error e => (file, some e)
        | .ok (st, r3) =>
          let file := { file with strong := st }
          match decInt r3 with
          | .error e => (file, some e)
          | .ok (sz, r4) =>
            let file := { file with Size := sz }
            match decBlocks r4 with
            | .error e => (file, some e)
            | .ok (bs, _) =>
              let file := { file with Blocks := bs }
              ({ file with
                  Blocks := file.Blocks.map
                    (fun b => { b with parent := some file.strong }) },
               none)

/-- `Dir.GobDecode`: version check, then `name`, `mode`, `strong`,
`SubDirs`, `Files`; on success every decoded child file and sub-dir gets
its parent reference set to the just-decoded dir. -/
def Dir.gobDecode (dir : Dir) (buf : List GobVal) : Dir × Option String :=
  match checkVersion buf with
  | (some e, _) => (dir, some e)
  | (none, r0) =>
    match decStr r0 with
    | .error e => (dir, some e)
    | .ok (nm, r1) =>
      let dir := { dir with name := nm }
      match decInt r1 with
      | .error e => (dir, some e)
      | .ok (md, r2) =>
        let dir := { dir with mode := md }
        match decStr r2 with
        | .error e => (dir, some e)
        | .ok (st, r3) =>
          let dir := { dir with strong := st }
          match decDirs r3 with
          | .error e => (dir, some e)
          | .ok (ds, r4) =>
            let dir := { dir with SubDirs := ds }
            match decFiles r4 with
            | .error e => (dir, some e)
            | .ok (fs, _) =>
              let dir := { dir with Files := fs }
              ({ dir with
                  Files := dir.Files.map
                    (fun f => { f with parent := some dir.strong }),
                  SubDirs := dir.SubDirs.map
                    (fun d => { d with parent := some dir.strong }) },
               none)

/-- `Block.GobEncode`: the version tag followed by `position`, `weak`,
`strong` in order (the Go drops the error of the last two `EncodeValue`
calls, which has no effect on the produced bytes). -/
def Block.gobEncode (b : Block) : List GobVal :=
  [.vint gobNodeVersion, .vint b.position, .vint b.weak, .vstr b.strong]

/-- `File.GobEncode`: version, `name`, `mode`, `strong`, `Size`, `Blocks`. -/
def File.gobEncode (f : File) : List GobVal :=
  [.vint gobNodeVersion, .vstr f.name, .vint f.mode, .vstr f.strong,
   .vint f.Size, .vblocks f.Blocks]

/-- `Dir.GobEncode`: version, `name`, `mode`, `strong`, `SubDirs`, `Files`. -/
def Dir.gobEncode (d : Dir) : List GobVal :=
  [.vint gobNodeVersion, .vstr d.name, .vint d.mode, .vstr d.strong,
   .vdirs d.SubDirs, .vfiles d.Files]

/-! ## Local store (store.go)

Strings are manipulated through their character lists.  The Go stdlib
functions used by the store are modeled at their interface:
`strings.Replace(s, old, "", 1)` removes the first occurrence of `old`
(and leaves `s` unchanged when `old` is empty), `strings.TrimLeft`
drops leading cutset characters, and `path/filepath.Join` joins the
non-empty components with a `/` separator (the `Clean` rewriting of
dots and duplicate separators is not modeled; every path built here is
already clean). -/

def isSep (c : Char) : Bool := c = '/' || c = '\\'

/-- `strings.Replace(s, pat, "", 1)`: remove the first occurrence of `pat`
from `s`; with an empty `pat` the Go replaces the empty string at the start
with the empty replacement, leaving `s` unchanged. -/
def replaceFirst : List Char → List Char → List Char
  | [], _ => []
  | c :: rest, pat =>
      if pat.isPrefixOf (c :: rest) && !pat.isEmpty then
        (c :: rest).drop pat.length
      else
        c :: replaceFirst rest pat

/-- `localBase.RelPath` / `LocalStore.RelPath`:
`strings.Replace(fullpath, rootPath, "", 1)` then
`strings.TrimLeft(·, "/\x5c")`. -/
def relPathOf (rootPath fullpath : String) : String :=
  ((replaceFirst fullpath.data rootPath.data).dropWhile (fun c => isSep c)).asString

/-- `path/filepath.Join` at this codebase's call sites (clean inputs). -/
def joinPath (a b : String) : String :=
  if a = "" then b else if b = "" then a else a ++ "/" ++ b

/-- Modelled from the spec: the BlockIndex maps strong checksums to Block
and File nodes and answers `StrongBlock`/`StrongFile` lookups with a
not-found signal (`IndexBlocks`/`BlockIndex` are not under src/; only their
callers are). -/
structure BlockIndex where
  blocks : List (String × Block)
  files : List (String × File)

def BlockIndex.StrongBlock (idx : BlockIndex) (s : String) : Option Block :=
  (idx.blocks.find? (fun p => p.1 == s)).map (fun p => p.2)

def BlockIndex.StrongFile (idx : BlockIndex) (s : String) : Option File :=
  (idx.files.find? (fun p => p.1 == s)).map (fun p => p.2)

/-- The state shared by both LocalStore variants (`localBase`, and the
fields of the first variant's `LocalStore` struct): root path, block
index, and the relocation table.  The Go map is modeled as an association
list whose most recent insertion is consulted first. -/
structure localBase where
  rootPath : String
  index : BlockIndex
  relocs : List (String × String)

def lookupReloc (relocs : List (String × String)) (k : String) : Option String :=
  (relocs.find? (fun p => p.1 == k)).map (fun p => p.2)

/-- `localBase.Resolve` / `LocalStore.Resolve`: substitute the relocated
relative path when the relocation table has an entry, then join with the
store root. -/
def localBase.Resolve (store : localBase) (relpath : String) : String :=
  match lookupReloc store.relocs relpath with
  | some relocPath => joinPath store.rootPath relocPath
  | none => joinPath store.rootPath relpath

/-- `localBase.Relocate` / `LocalStore.Relocate` on its success path: the
OS-chosen temp-file name under the root is passed in as `relocFullpath`
(Go obtains it from `ioutil.TempFile(rootPath, RELOC_PREFIX)` with stem
`"_reloc"`); the placeholder removal and the `Move` are filesystem effects
modeled as succeeding.  Records `RelPath(fullpath) → RelPath(relocFullpath)`
in the relocation table and returns the relocated full path. -/
def localBase.Relocate (store : localBase) (fullpath relocFullpath : String) :
    localBase × String :=
  let relpath := relPathOf store.rootPath fullpath
  let relocRelpath := relPathOf store.rootPath relocFullpath
  ({ store with relocs := (relpath, relocRelpath) :: store.relocs }, relocFullpath)

inductive StoreErr where
  | notFound (strong : String)
  | openFailed
  | seekFailed
  | eof
deriving Repr, DecidableEq

/-- `localBase.ReadInto` / `LocalStore.ReadInto`.  The filesystem is the map
`fsys : path → bytes`; the destination writer is a byte list that copied
bytes are appended to.  `fileRel` is the free function `RelPath(file)`
(modelled from the spec: it produces the file's path relative to the store
root by upward traversal of parent references; its body is not under src/).
`os.Open` failing yields a nil handle (`openFailed`); `Seek` fails exactly
on a negative target offset; `io.CopyN(writer, fh, length)` copies
`min(length, bytes-after-offset)` bytes (none when `length ≤ 0`) and
reports EOF when fewer than `length` were copied. -/
def localBase.ReadInto (store : localBase) (fsys : String → Option (List Nat))
    (fileRel : File → String) (strong : String) (frm length : Int)
    (writer : List Nat) : (Int × Option StoreErr) × List Nat :=
  match store.index.StrongFile strong with
  | none => ((0, some (.notFound strong)), writer)
  | some file =>
    let path := store.Resolve (fileRel file)
    match fsys path with
    | none => ((0, some .openFailed), writer)
    | some data =>
      if frm < 0 then ((0, some .seekFailed), writer)
      else
        let avail : Int := max 0 ((data.length : Int) - frm)
        let n : Int := min (max length 0) avail
        let copied := (data.drop frm.toNat).take n.toNat
        if n < length then ((n, some .eof), writer ++ copied)
        else ((n, none), writer ++ copied)

/-- `localBase.ReadBlock` / `LocalStore.ReadBlock`: look up the block,
then delegate to `ReadInto` at the block's offset for `BLOCKSIZE` bytes of
its owning file (`block.Parent().Strong()`; a nil parent would be a Go
nil-pointer panic — indexed blocks always carry a parent — modeled as the
empty checksum).  The Go then tests `if err == nil { return nil, err }`
and otherwise returns `buf.Bytes(), nil`; the embedding reproduces that
branch exactly as written. -/
def localBase.ReadBlock (store : localBase) (fsys : String → Option (List Nat))
    (fileRel : File → String) (strong : String) :
    Option (List Nat) × Option StoreErr :=
  match store.index.StrongBlock strong with
  | none => (none, some (.notFound strong))
  | some block =>
    let res := store.ReadInto fsys fileRel (block.parent.getD "")
      block.Offset BLOCKSIZE []
    match res.1.2 with
    | none => (none, none)
    | some _ => (some res.2, none)

inductive FileKind where
  | directory
  | regular
  | other
deriving Repr, DecidableEq

inductive StoreVariant where
  | dirStore
  | fileStore
deriving Repr, DecidableEq

inductive NewStoreOutcome where
  | ok (v : StoreVariant)
  | errReturn (msg : String)
  | nilDeref
deriving Repr, DecidableEq

/-- `NewLocalStore` (two-variant factory): stat the root (its result is the
`statResult` parameter); on stat error return that error.  A directory
selects `LocalDirStore`, a regular file `LocalFileStore`; any other kind
constructs neither, so the `local` interface variable stays nil and the
unconditional `local.reindex()` that follows dereferences nil (modeled as
the `nilDeref` outcome).  `reindexErr` supplies the chosen variant's
reindex result (`IndexDir`/`IndexFile` are not under src/). -/
def NewLocalStore (statResult : Except String FileKind)
    (reindexErr : StoreVariant → Option String) : NewStoreOutcome :=
  match statResult with
  | .error e => .errReturn e
  | .ok kind =>
    let l : Option StoreVariant :=
      match kind with
      | .directory => some .dirStore
      | .regular => some .fileStore
      | .other => none
    match l with
    | none => .nilDeref
    | some v =>
      match reindexErr v with
      | some e => .errReturn e
      | none => .ok v

/-! ## Concrete sample values used by witness theorems -/

def blockA : Block :=
  { position := 0, weak := 7, strong := "blockstrongA", parent := some "filestrongA" }

def fileA : File :=
  { name := "a.txt", mode := 420, strong := "filestrongA", Size := 8192,
    Blocks := [blockA], parent := none }

def storeA : localBase :=
  { rootPath := "/store",
    index := { blocks := [("blockstrongA", blockA)],
               files := [("filestrongA", fileA)] },
    relocs := [] }

def fsysA : String → Option (List Nat) := fun p =>
  if p = "/store/a.txt" then some (List.replicate 8192 1) else none

def fileRelA : File → String := fun f => f.name

def emptyStore : localBase :=
  { rootPath := "/store", index := { blocks := [], files := [] }, relocs := [] }

def blockT : Block := { position := 5, weak := 9, strong := "bt", parent := none }

def fileT : File :=
  { name := "t", mode := 0, strong := "ft", Size := 0, Blocks := [], parent := none }

def dirT : Dir :=
  { name := "d", mode := 0, strong := "dt", SubDirs := [], Files := [], parent := none }

/-- A wire blob for a File whose child block carries a stale parent. -/
def bufFileW : List GobVal :=
  [.vint 1, .vstr "w.txt", .vint 420, .vstr "fw", .vint 100,
   .vblocks [{ position := 0, weak := 3, strong := "bw", parent := some "stale" }]]

/-- A wire blob for a Dir with one sub-dir and one file, both with stale
parents. -/
def bufDirW : List GobVal :=
  [.vint 1, .vstr "wd", .vint 493, .vstr "dw",
   .vdirs [{ name := "sub", mode := 493, strong := "sw", SubDirs := [],
             Files := [], parent := some "stale" }],
   .vfiles [{ name := "f", mode := 420, strong := "fw2", Size := 1,
              Blocks := [], parent := some "stale" }]]

/-! ## Helper lemmas -/

theorem start_aux_zeros (l : Int) : ∀ (n : Nat) (i : Int) (st : Int × Int),
    start_aux l i (List.replicate n 0) st = st := by
  intro n
  induction n with
  | zero => intro i st; rfl
  | succ k ih =>
      intro i st
      rw [List.replicate_succ, start_aux]
      simp only [mul_zero, add_zero, Prod.mk.eta]
      exact ih _ _

theorem rollzero_replicate : ∀ (n : Nat) (a b : Int),
    (List.replicate n (0 : Int)).foldl (fun st x => wcRoll 0 x st) (a, b) =
      (a, b + n * a) := by
  intro n
  induction n with
  | zero => intro a b; simp
  | succ k ih =>
      intro a b
      rw [List.replicate_succ, List.foldl_cons]
      have hw : wcRoll 0 0 (a, b) = (a, b + a) := by
        simp [wcRoll]
      rw [hw, ih]
      push_cast
      ring_nf

theorem readInto_success (store : localBase) (fsys : String → Option (List Nat))
    (fileRel : File → String) (strong : String) (frm length : Int)
    (writer : List Nat) (file : File) (data : List Nat)
    (hf : store.index.StrongFile strong = some file)
    (hd : fsys (store.Resolve (fileRel file)) = some data)
    (h0 : 0 ≤ frm) (h1 : 0 ≤ length) (h2 : frm + length ≤ (data.length : Int)) :
    store.ReadInto fsys fileRel strong frm length writer =
      ((length, none), writer ++ (data.drop frm.toNat).take length.toNat) := by
  simp only [localBase.ReadInto, hf, hd]
  rw [if_neg (by omega)]
  have hn : (max length 0) ⊓ (max 0 ((data.length : Int) - frm)) = length := by
    omega
  rw [hn, if_neg (lt_irrefl length)]

theorem readInto_no_silent_short (store : localBase) (fsys : String → Option (List Nat))
    (fileRel : File → String) (strong : String) (frm length : Int)
    (writer : List Nat)
    (h : (store.ReadInto fsys fileRel strong frm length writer).1.2 = none) :
    ¬ (store.ReadInto fsys fileRel strong frm length writer).1.1 < length := by
  revert h
  simp only [localBase.ReadInto]
  cases hso : store.index.StrongFile strong with
  | none => simp
  | some file =>
    cases hfd : fsys (store.Resolve (fileRel file)) with
    | none => simp [hfd]
    | some data =>
      simp only [hfd]
      by_cases h0 : frm < 0
      · simp [h0]
      · rw [if_neg h0]
        split
        · simp
        · rename_i hlt
          intro _
          exact hlt

theorem replaceFirst_nil_pat : ∀ (s : List Char), replaceFirst s [] = s := by
  intro s
  induction s with
  | nil => rfl
  | cons c rest ih => rw [replaceFirst]; simp [ih]

theorem replaceFirst_append (p s : List Char) (hp : p ≠ []) :
    replaceFirst (p ++ s) p = s := by
  cases p with
  | nil => exact absurd rfl hp
  | cons c p =>
      rw [List.cons_append, replaceFirst]
      have hpre : (c :: p).isPrefixOf (c :: (p ++ s)) = true := by
        rw [List.isPrefixOf_iff_prefix]
        exact List.prefix_append (c :: p) s
      rw [if_pos (by simp [hpre])]
      exact List.drop_left (c :: p) s

theorem joinPath_nonempty (a b : String) (ha : a ≠ "") (hb : b ≠ "") :
    joinPath a b = a ++ "/" ++ b := by
  rw [joinPath, if_neg ha, if_neg hb]

/-! ## Claim theorems -/

/-- C1: the claim says `ReadBlock` on an indexed strong checksum returns the
block's bytes and never a nil result on a successful delegated read.  The
code tests `if err == nil { return nil, err }`, so on the fully successful
concrete scenario below — a one-file store whose 8192-byte file backs the
indexed block, where the delegated `ReadInto` returns the full `BLOCKSIZE`
count with no error — `ReadBlock` returns a nil byte slice and a nil error
instead of the bytes. -/
theorem readBlock_nil_after_successful_delegated_read :
    (storeA.ReadInto fsysA fileRelA "filestrongA" 0 BLOCKSIZE []).1 = (BLOCKSIZE, none) ∧
    storeA.ReadBlock fsysA fileRelA "blockstrongA" = (none, none) := by
  have hf : storeA.index.StrongFile "filestrongA" = some fileA := rfl
  have hd : fsysA (storeA.Resolve (fileRelA fileA)) = some (List.replicate 8192 1) := rfl
  have h2 : (0 : Int) + BLOCKSIZE ≤ (((List.replicate 8192 (1 : Nat)).length : Nat) : Int) := by
    rw [List.length_replicate]
    norm_num [BLOCKSIZE]
  have hri := readInto_success storeA fsysA fileRelA "filestrongA" 0 BLOCKSIZE []
    fileA (List.replicate 8192 1) hf hd (by norm_num) (by norm_num [BLOCKSIZE]) h2
  constructor
  · rw [hri]
  · have hb : storeA.index.StrongBlock "blockstrongA" = some blockA := rfl
    have hparent : blockA.parent.getD "" = "filestrongA" := rfl
    have hoff : blockA.Offset = 0 := by
      simp [Block.Offset, blockA]
    simp only [localBase.ReadBlock, hb, hparent, hoff, hri]

/-- C2: an unknown strong checksum makes `ReadBlock` return a NotFound
error result (no panic) and makes `ReadInto` return a written count of 0
together with the NotFound error, leaving the destination writer
untouched. -/
theorem readBlock_readInto_error_on_unknown_strong :
    ∀ (store : localBase) (fsys : String → Option (List Nat))
      (fileRel : File → String) (strong : String) (frm length : Int)
      (writer : List Nat),
      store.index.StrongBlock strong = none →
      store.index.StrongFile strong = none →
      store.ReadBlock fsys fileRel strong = (none, some (.notFound strong)) ∧
      store.ReadInto fsys fileRel strong frm length writer =
        ((0, some (.notFound strong)), writer) := by
  intro store fsys fileRel strong frm length writer hb hf
  constructor
  · simp [localBase.ReadBlock, hb]
  · simp [localBase.ReadInto, hf]

theorem readBlock_readInto_error_on_unknown_strong_witness :
    emptyStore.ReadBlock (fun _ => none) (fun _ => "") "nope" =
      (none, some (.notFound "nope")) ∧
    emptyStore.ReadInto (fun _ => none) (fun _ => "") "nope" 0 0 [] =
      ((0, some (.notFound "nope")), []) :=
  readBlock_readInto_error_on_unknown_strong emptyStore (fun _ => none)
    (fun _ => "") "nope" 0 0 [] rfl rfl

/-- C3: when the BlockIndex maps the strong checksum to a File and the
relocation-resolved physical path holds enough bytes, `ReadInto` copies
exactly `length` bytes starting at `from` into the writer and returns
exactly `length` with no error; and on every input, a returned count
smaller than `length` comes with an error (no silent short read). -/
theorem readInto_exact_length_or_error :
    ∀ (store : localBase) (fsys : String → Option (List Nat))
      (fileRel : File → String) (strong : String) (frm length : Int)
      (writer : List Nat) (file : File) (data : List Nat),
      store.index.StrongFile strong = some file →
      fsys (store.Resolve (fileRel file)) = some data →
      0 ≤ frm → 0 ≤ length → frm + length ≤ (data.length : Int) →
      (store.ReadInto fsys fileRel strong frm length writer =
        ((length, none), writer ++ (data.drop frm.toNat).take length.toNat)) ∧
      (∀ (frm2 len2 : Int) (w2 : List Nat),
        (store.ReadInto fsys fileRel strong frm2 len2 w2).1.2 = none →
        ¬ (store.ReadInto fsys fileRel strong frm2 len2 w2).1.1 < len2) := by
  intro store fsys fileRel strong frm length writer file data hf hd h0 h1 h2
  refine ⟨readInto_success store fsys fileRel strong frm length writer file data
    hf hd h0 h1 h2, ?_⟩
  intro frm2 len2 w2 h
  exact readInto_no_silent_short store fsys fileRel strong frm2 len2 w2 h

theorem readInto_exact_length_or_error_witness :
    storeA.ReadInto fsysA fileRelA "filestrongA" 0 BLOCKSIZE [] =
      ((BLOCKSIZE, none),
        [] ++ ((List.replicate 8192 1).drop (0 : Int).toNat).take BLOCKSIZE.toNat) :=
  (readInto_exact_length_or_error storeA fsysA fileRelA "filestrongA" 0 BLOCKSIZE
    [] fileA (List.replicate 8192 1) rfl rfl (by norm_num) (by norm_num [BLOCKSIZE])
    (by rw [List.length_replicate]; norm_num [BLOCKSIZE])).1

/-- C4: decoding a blob whose leading version tag differs from the
decoder's compiled-in `gobNodeVersion = 1` fails with VersionMismatch for
Block, File and Dir alike, returning the target node with every field
unchanged (no partial field decoding). -/
theorem gobDecode_version_mismatch_leaves_node_unchanged :
    ∀ (b : Block) (f : File) (d : Dir) (v : Int) (rest : List GobVal),
      v ≠ gobNodeVersion →
      b.gobDecode (.vint v :: rest) = (b, some "VersionMismatch") ∧
      f.gobDecode (.vint v :: rest) = (f, some "VersionMismatch") ∧
      d.gobDecode (.vint v :: rest) = (d, some "VersionMismatch") := by
  intro b f d v rest hv
  refine ⟨?_, ?_, ?_⟩ <;>
    simp [Block.gobDecode, File.gobDecode, Dir.gobDecode, checkVersion, hv]

theorem gobDecode_version_mismatch_leaves_node_unchanged_witness :
    blockT.gobDecode [.vint 2] = (blockT, some "VersionMismatch") ∧
    fileT.gobDecode [.vint 2] = (fileT, some "VersionMismatch") ∧
    dirT.gobDecode [.vint 2] = (dirT, some "VersionMismatch") :=
  gobDecode_version_mismatch_leaves_node_unchanged blockT fileT dirT 2 []
    (by decide)

/-- C5: after a successful `File.GobDecode` every block in the decoded
`Blocks` has its parent reference set to the decoded file, and after a
successful `Dir.GobDecode` every file in `Files` and every sub-dir in
`SubDirs` has its parent reference set to the decoded dir — regardless of
whatever parent values the serialized children carried, so back-references
are reconstructed, never read from the wire. -/
theorem gobDecode_sets_child_parents :
    (∀ (t : File) (buf : List GobVal) (f : File),
        File.gobDecode t buf = (f, none) →
        ∀ b ∈ f.Blocks, b.parent = some f.strong) ∧
    (∀ (t : Dir) (buf : List GobVal) (d : Dir),
        Dir.gobDecode t buf = (d, none) →
        (∀ fi ∈ d.Files, fi.parent = some d.strong) ∧
        (∀ sd ∈ d.SubDirs, sd.parent = some d.strong)) := by
  constructor
  · intro t buf f h
    simp only [File.gobDecode] at h
    split at h
    · simp at h
    · split at h
      · simp at h
      · split at h
        · simp at h
        · split at h
          · simp at h
          · split at h
            · simp at h
            · split at h
              · simp at h
              · rw [Prod.mk.injEq] at h
                obtain ⟨hf, -⟩ := h
                subst hf
                intro b hb
                simp only [List.mem_map] at hb
                obtain ⟨x, -, rfl⟩ := hb
                simp
  · intro t buf d h
    simp only [Dir.gobDecode] at h
    split at h
    · simp at h
    · split at h
      · simp at h
      · split at h
        · simp at h
        · split at h
          · simp at h
          · split at h
            · simp at h
            · split at h
              · simp at h
              · rw [Prod.mk.injEq] at h
                obtain ⟨hd, -⟩ := h
                subst hd
                constructor
                · intro fi hfi
                  simp only [List.mem_map] at hfi
                  obtain ⟨x, -, rfl⟩ := hfi
                  simp
                · intro sd hsd
                  simp only [List.mem_map] at hsd
                  obtain ⟨x, -, rfl⟩ := hsd
                  simp

theorem gobDecode_sets_child_parents_witness :
    (∀ b ∈ (File.gobDecode fileT bufFileW).1.Blocks,
        b.parent = some (File.gobDecode fileT bufFileW).1.strong) ∧
    ((∀ fi ∈ (Dir.gobDecode dirT bufDirW).1.Files,
        fi.parent = some (Dir.gobDecode dirT bufDirW).1.strong) ∧
     (∀ sd ∈ (Dir.gobDecode dirT bufDirW).1.SubDirs,
        sd.parent = some (Dir.gobDecode dirT bufDirW).1.strong)) :=
  ⟨gobDecode_sets_child_parents.1 fileT bufFileW _ rfl,
   gobDecode_sets_child_parents.2 dirT bufDirW _ rfl⟩

/-- C6: decoding the blob produced by `Block.GobEncode` succeeds and
reproduces the block's position, weak checksum and strong checksum exactly,
and the encoded blob begins with the integer version tag. -/
theorem block_gob_roundtrip : ∀ (b t : Block),
    (Block.gobDecode t (Block.gobEncode b)).2 = none ∧
    (Block.gobDecode t (Block.gobEncode b)).1.position = b.position ∧
    (Block.gobDecode t (Block.gobEncode b)).1.weak = b.weak ∧
    (Block.gobDecode t (Block.gobEncode b)).1.strong = b.strong ∧
    (Block.gobEncode b).head? = some (.vint gobNodeVersion) := by
  intro b t
  simp [Block.gobDecode, Block.gobEncode, checkVersion, decInt, decStr, gobNodeVersion]

/-- C7: the claim says the weak checksum of a single `update`
(`start_cksum`) over an 8192-byte buffer equals the checksum obtained by
rolling every byte in from the all-zero state with `roll(0, newByte)`.
On the 8192-byte buffer whose first byte is 1 and rest are 0, `update`
yields accumulators `(a, b) = (1, 8191)` (checksum 536805377) while
rolling from zero yields `(1, 8192)` (checksum 536870913): the `b`
accumulators differ by `a`, because `update` weights byte `i` (1-based)
by `l - i` but `roll` weights it by `l - i + 1`. -/
theorem weak_update_vs_roll_at_8192 :
    (1 :: List.replicate 8191 (0 : Int)).length = 8192 ∧
    start_cksum (1 :: List.replicate 8191 0) = (1, 8191) ∧
    rollFromZero (1 :: List.replicate 8191 0) = (1, 8192) ∧
    getChecksum (start_cksum (1 :: List.replicate 8191 0)) = 536805377 ∧
    getChecksum (rollFromZero (1 :: List.replicate 8191 0)) = 536870913 := by
  have hlen : (1 :: List.replicate 8191 (0 : Int)).length = 8192 := by
    rw [List.length_cons, List.length_replicate]
  have hstart : start_cksum (1 :: List.replicate 8191 0) = (1, 8191) := by
    rw [start_cksum, hlen]
    rw [show ((8192 : Nat) : Int) = 8192 from rfl]
    rw [start_aux, start_aux_zeros]
    norm_num
  have hroll : rollFromZero (1 :: List.replicate 8191 0) = (1, 8192) := by
    rw [rollFromZero, List.foldl_cons]
    have hw : wcRoll 0 1 (0, 0) = (1, 1) := by simp [wcRoll]
    rw [hw, rollzero_replicate]
    norm_num
  refine ⟨hlen, hstart, hroll, ?_, ?_⟩
  · rw [hstart]; norm_num [getChecksum]
  · rw [hroll]; norm_num [getChecksum]

/-- C8: `Resolve` substitutes the relocated relative path exactly when the
relocation table has an entry, then joins with the store root; and after a
successful `Relocate(fullpath)` whose temp target is `root ++ "/" ++ name`,
the table maps `RelPath(fullpath)` to `RelPath(relocFullpath)` and
resolving `RelPath(fullpath)` yields the relocated physical path. -/
theorem resolve_after_relocate :
    (∀ (store : localBase) (relpath r : String),
        (lookupReloc store.relocs relpath = some r →
          store.Resolve relpath = joinPath store.rootPath r) ∧
        (lookupReloc store.relocs relpath = none →
          store.Resolve relpath = joinPath store.rootPath relpath)) ∧
    (∀ (store : localBase) (fullpath name : String),
        store.rootPath ≠ "" → name ≠ "" →
        name.data.dropWhile (fun c => isSep c) = name.data →
        lookupReloc (store.Relocate fullpath (store.rootPath ++ "/" ++ name)).1.relocs
            (relPathOf store.rootPath fullpath) =
          some (relPathOf store.rootPath (store.rootPath ++ "/" ++ name)) ∧
        (store.Relocate fullpath (store.rootPath ++ "/" ++ name)).1.Resolve
            (relPathOf store.rootPath fullpath) =
          store.rootPath ++ "/" ++ name) := by
  constructor
  · intro store relpath r
    constructor
    · intro h; simp [localBase.Resolve, h]
    · intro h; simp [localBase.Resolve, h]
  · intro store fullpath name hroot hname hnosep
    have hrootdata : store.rootPath.data ≠ [] := by
      intro hc
      exact hroot (String.ext hc)
    have hdata : (store.rootPath ++ "/" ++ name).data =
        store.rootPath.data ++ '/' :: name.data := by
      rw [String.data_append, String.data_append, List.append_assoc]
      rfl
    have hval : relPathOf store.rootPath (store.rootPath ++ "/" ++ name) = name := by
      rw [relPathOf, hdata, replaceFirst_append _ _ hrootdata]
      rw [List.dropWhile_cons, if_pos (by decide), hnosep]
      rfl
    have hlk : lookupReloc
        ((relPathOf store.rootPath fullpath,
          relPathOf store.rootPath (store.rootPath ++ "/" ++ name)) :: store.relocs)
        (relPathOf store.rootPath fullpath) =
        some (relPathOf store.rootPath (store.rootPath ++ "/" ++ name)) := by
      simp [lookupReloc, List.find?]
    constructor
    · simpa [localBase.Relocate] using hlk
    · simp only [localBase.Relocate, localBase.Resolve, hlk]
      rw [hval, joinPath_nonempty _ _ hroot hname]

theorem resolve_after_relocate_witness :
    lookupReloc
        (emptyStore.Relocate "/store/x.txt" ("/store" ++ "/" ++ "_reloc42")).1.relocs
        (relPathOf "/store" "/store/x.txt") =
      some (relPathOf "/store" ("/store" ++ "/" ++ "_reloc42")) ∧
    (emptyStore.Relocate "/store/x.txt" ("/store" ++ "/" ++ "_reloc42")).1.Resolve
        (relPathOf "/store" "/store/x.txt") =
      "/store" ++ "/" ++ "_reloc42" :=
  resolve_after_relocate.2 emptyStore "/store/x.txt" "_reloc42"
    (by decide) (by decide) (by decide)

/-- C9: `RelPath` on a full path that begins with the store's root strips
that root prefix and then all leading '/' and '\x5c' separators, leaving
exactly the remainder. -/
theorem relPath_strips_root_prefix : ∀ (root rest : String),
    relPathOf root (root ++ rest) =
      (rest.data.dropWhile (fun c => isSep c)).asString := by
  intro root rest
  rw [relPathOf, String.data_append]
  by_cases h : root.data = []
  · rw [h, List.nil_append, replaceFirst_nil_pat]
  · rw [replaceFirst_append _ _ h]

/-- C10: in the two-variant `NewLocalStore`, a root whose stat succeeds but
is neither a directory nor a regular file constructs neither store variant;
the factory then invokes `reindex` through the nil interface value — a nil
dereference, not an error return. -/
theorem newLocalStore_other_kind_nil_deref :
    ∀ (reindexErr : StoreVariant → Option String),
      NewLocalStore (.ok .other) reindexErr = .nilDeref := by
  intro reindexErr
  rfl

end Replican
